import Mathlib

/-!
Verification development for the persona-driven PDF extraction pipeline
(`abodeRound1.py`: `get_sections_from_pdf`, `score_relevance`,
`process_documents`).

Modelling conventions:
* Python strings are modelled as `List Char` (`Str`), matching Python's
  code-point indexing, slicing and `len`.
* An opened PDF document (the external `fitz` backend) is modelled as the
  list of its pages, each page the list of the raw text strings of its
  text blocks (the `b[4]` component), in backend order.
* The external embedding backend plus the external cosine-similarity
  routine are abstracted as a similarity function `sim : Str → Str → α`
  over a linear-ordered field of scores; for the numerical claims the
  score field is instantiated at `ℝ` with an explicit cosine similarity
  over embedding vectors.
* Python's `sorted(..., key=score, reverse=True)` is a stable descending
  sort; it is modelled by a stable insertion sort `sortDesc`.
* Python's `round(x, 4)` is modelled as exact rounding of `x * 10000` to
  the nearest integer divided by `10000` (`round4`), ignoring binary
  floating-point representation effects.
-/

/-- Python strings as lists of characters (code points). -/
abbrev Str := List Char

/-- One raw text block of a page: the string content `b[4]` returned by the
document backend. -/
abbrev Block := Str

/-- One page of an opened document: its text blocks in backend order. -/
abbrev Page := List Block

/-- An opened document: its pages in document order. -/
abbrev Pdf := List Page

/-- A candidate section as built by `get_sections_from_pdf`:
the dict `{"doc": ..., "page": ..., "text": ...}`. -/
structure Candidate where
  doc : Str
  page : Nat
  text : Str
deriving DecidableEq

/-- A candidate with its relevance score attached, as mutated by
`score_relevance` (`texts[i]["score"] = float(s)`), generic in the score
field. -/
structure ScoredCand (α : Type) where
  doc : Str
  page : Nat
  text : Str
  score : α
deriving DecidableEq

/-- An entry of the report's `extracted_sections` list. -/
structure ExtractedSection (α : Type) where
  document : Str
  page : Nat
  section_title : Str
  importance_rank : Nat
  score : α
deriving DecidableEq

/-- An entry of the report's `subsection_analysis` list. -/
structure SubsectionEntry where
  document : Str
  page : Nat
  refined_text : Str
deriving DecidableEq

/-- The report's `metadata` object. -/
structure Metadata where
  documents : List Str
  persona : Str
  job : Str
  timestamp : Str
deriving DecidableEq

/-- The final result dict assembled by `process_documents`. -/
structure Report (α : Type) where
  metadata : Metadata
  extracted_sections : List (ExtractedSection α)
  subsection_analysis : List SubsectionEntry
deriving DecidableEq

/-- Python `str.strip()`: remove whitespace from both ends. -/
def trim (s : Str) : Str :=
  ((s.dropWhile Char.isWhitespace).reverse.dropWhile Char.isWhitespace).reverse

/-- Python `os.path.basename`: the part of the path after the last `/`. -/
def basename (p : Str) : Str :=
  (p.reverse.takeWhile (fun c => c != '/')).reverse

/-- Python `text.split("\n")[0]`: the maximal prefix with no newline. -/
def firstLine (s : Str) : Str :=
  s.takeWhile (fun c => c != '\n')

/-- Python `enumerate` fused with a comprehension: apply `f` to each element
together with its index, starting the count at `n`. -/
def enumMap {β γ : Type} (f : Nat → β → γ) : Nat → List β → List γ
  | _, [] => []
  | n, b :: bs => f n b :: enumMap f (n + 1) bs

/-- `get_sections_from_pdf(path)` (utils.py lines 60-73): for each page
(1-indexed) and each text block on it, strip the block's text and keep it
as a candidate iff the stripped length is at least 30; the candidate is
tagged with the path's basename and the 1-based page number.  The opened
document (the external `fitz` backend) is passed in explicitly. -/
def get_sections_from_pdf (path : Str) (doc : Pdf) : List Candidate :=
  (enumMap (fun i page =>
    page.filterMap (fun b =>
      let text := trim b
      if 30 ≤ text.length then some ⟨basename path, i + 1, text⟩ else none))
    0 doc).flatten

/-- Attach a score to each candidate in input order, modelling
`texts[i]["score"] = float(s)` with the external embedding/cosine
pipeline abstracted as `simq : Str → α`. -/
def attachScores {α : Type} (simq : Str → α) (texts : List Candidate) :
    List (ScoredCand α) :=
  texts.map (fun t => ⟨t.doc, t.page, t.text, simq t.text⟩)

/-- Stable descending insertion: walk past strictly greater scores, then
insert, so an inserted element lands before any element of equal score. -/
def insertDesc {α : Type} [LinearOrder α] (c : ScoredCand α) :
    List (ScoredCand α) → List (ScoredCand α)
  | [] => [c]
  | y :: ys => if c.score < y.score then y :: insertDesc c ys else c :: y :: ys

/-- Stable sort by descending score, modelling Python's
`sorted(texts, key=lambda x: x["score"], reverse=True)` (Timsort is
stable; `reverse=True` keeps equal elements in input order). -/
def sortDesc {α : Type} [LinearOrder α] :
    List (ScoredCand α) → List (ScoredCand α)
  | [] => []
  | c :: cs => insertDesc c (sortDesc cs)

/-- `score_relevance(texts, query)` (utils.py lines 76-82): score every
candidate against the query and return the candidates sorted by
descending score (stable). -/
def score_relevance {α : Type} [LinearOrder α] (sim : Str → Str → α)
    (texts : List Candidate) (query : Str) : List (ScoredCand α) :=
  sortDesc (attachScores (sim query) texts)

/-- The batches passed to the embedding backend by `score_relevance`:
line 77 encodes the list of all candidate texts and line 78 encodes the
query, unconditionally (there is no emptiness guard in the source). -/
def score_relevance_calls (texts : List Candidate) (query : Str) :
    List (List Str) :=
  [texts.map (fun t => t.text), [query]]

/-- Python `round(x, 4)` modelled over an ordered field: round `x * 10000`
to the nearest integer and divide back.  (The source rounds a binary
float half-to-even; ties and representation error are abstracted away.) -/
def round4 {α : Type} [LinearOrderedField α] [FloorRing α] (x : α) : α :=
  ((round (x * 10000) : ℤ) : α) / 10000

/-- The pooled candidate list `all_sections` (utils.py lines 86-89):
candidates of every document in supplied order, concatenated. -/
def all_sections (pdfs : List (Str × Pdf)) : List Candidate :=
  (pdfs.map (fun pd => get_sections_from_pdf pd.1 pd.2)).flatten

/-- The intent query `f"{persona} needs to {job}"` (utils.py line 91). -/
def full_query (persona job : Str) : Str :=
  persona ++ (" needs to ").toList ++ job

/-- `ranked_sections = score_relevance(all_sections, full_query)[:10]`
(utils.py line 92). -/
def ranked_sections {α : Type} [LinearOrder α] (sim : Str → Str → α)
    (pdfs : List (Str × Pdf)) (persona job : Str) : List (ScoredCand α) :=
  (score_relevance sim (all_sections pdfs) (full_query persona job)).take 10

/-- One `extracted_sections` entry (utils.py lines 101-109): title is the
first line truncated to 50 characters, rank is the 0-based position plus
one, score is rounded to 4 decimal places. -/
def mkExtractedEntry {α : Type} [LinearOrderedField α] [FloorRing α]
    (i : Nat) (s : ScoredCand α) : ExtractedSection α :=
  ⟨s.doc, s.page, (firstLine s.text).take 50, i + 1, round4 s.score⟩

/-- One `subsection_analysis` entry (utils.py lines 110-116): the text hard
truncated to 300 characters. -/
def mkSubsectionEntry {α : Type} (s : ScoredCand α) : SubsectionEntry :=
  ⟨s.doc, s.page, s.text.take 300⟩

/-- `process_documents(pdf_paths, persona, job, timestamp)` (utils.py lines
85-119), with the opened documents supplied alongside their paths and
the embedding/cosine backend abstracted as `sim`. -/
def process_documents {α : Type} [LinearOrderedField α] [FloorRing α]
    (sim : Str → Str → α) (pdfs : List (Str × Pdf))
    (persona job timestamp : Str) : Report α :=
  { metadata :=
      ⟨pdfs.map (fun pd => basename pd.1), persona, job, timestamp⟩
    extracted_sections :=
      enumMap mkExtractedEntry 0 (ranked_sections sim pdfs persona job)
    subsection_analysis :=
      (ranked_sections sim pdfs persona job).map mkSubsectionEntry }

example :
    get_sections_from_pdf ("up/a.pdf").toList
      [[("  This text block is long enough to keep!  ").toList, ("tiny").toList]] =
    [⟨("a.pdf").toList, 1, ("This text block is long enough to keep!").toList⟩] := by
  decide

example :
    score_relevance (fun _ t => (t.length : ℚ))
      [⟨("a").toList, 1, ("xx").toList⟩, ⟨("a").toList, 1, ("y").toList⟩,
       ⟨("a").toList, 2, ("zz").toList⟩] (("q").toList) =
    [⟨("a").toList, 1, ("xx").toList, 2⟩, ⟨("a").toList, 2, ("zz").toList, 2⟩,
     ⟨("a").toList, 1, ("y").toList, 1⟩] := by
  decide

/-! ### Helper lemmas about `enumMap` -/

theorem enumMap_length {β γ : Type} (f : Nat → β → γ) (n : Nat) (l : List β) :
    (enumMap f n l).length = l.length := by
  induction l generalizing n with
  | nil => rfl
  | cons b bs ih => simp [enumMap, ih]

theorem enumMap_get {β γ : Type} (f : Nat → β → γ) :
    ∀ (l : List β) (n i : Nat) (h : i < (enumMap f n l).length)
      (h' : i < l.length),
      (enumMap f n l).get ⟨i, h⟩ = f (n + i) (l.get ⟨i, h'⟩) := by
  intro l
  induction l with
  | nil => intro n i h h'; simp at h'
  | cons b bs ih =>
    intro n i h h'
    cases i with
    | zero => rfl
    | succ j =>
      have hj : j < (enumMap f (n + 1) bs).length := by
        simpa [enumMap] using h
      have hj' : j < bs.length := by simpa using h'
      have := ih (n + 1) j hj hj'
      simpa [enumMap, Nat.add_assoc, Nat.add_comm 1 j] using this

theorem mem_enumMap {β γ : Type} {f : Nat → β → γ} {a : γ} :
    ∀ {l : List β} {n : Nat}, a ∈ enumMap f n l → ∃ k b, b ∈ l ∧ a = f k b := by
  intro l
  induction l with
  | nil => intro n h; simp [enumMap] at h
  | cons b bs ih =>
    intro n h
    rcases List.mem_cons.mp h with h1 | h1
    · exact ⟨n, b, List.mem_cons_self b bs, h1⟩
    · rcases ih h1 with ⟨k, b', hb', rfl⟩
      exact ⟨k, b', List.mem_cons_of_mem _ hb', rfl⟩

/-! ### Helper lemmas about the stable descending sort -/

theorem insertDesc_perm {α : Type} [LinearOrder α] (c : ScoredCand α)
    (l : List (ScoredCand α)) : (insertDesc c l).Perm (c :: l) := by
  induction l with
  | nil => simp [insertDesc]
  | cons y ys ih =>
    by_cases hlt : c.score < y.score
    · simp only [insertDesc, if_pos hlt]
      exact (ih.cons y).trans (List.Perm.swap c y ys)
    · simp [insertDesc, if_neg hlt]

theorem sortDesc_perm {α : Type} [LinearOrder α]
    (l : List (ScoredCand α)) : (sortDesc l).Perm l := by
  induction l with
  | nil => simp [sortDesc]
  | cons c cs ih => exact (insertDesc_perm c (sortDesc cs)).trans (ih.cons c)

theorem sortDesc_length {α : Type} [LinearOrder α]
    (l : List (ScoredCand α)) : (sortDesc l).length = l.length :=
  (sortDesc_perm l).length_eq

theorem mem_insertDesc {α : Type} [LinearOrder α] {c a : ScoredCand α}
    {l : List (ScoredCand α)} : a ∈ insertDesc c l ↔ a = c ∨ a ∈ l := by
  rw [(insertDesc_perm c l).mem_iff, List.mem_cons]

theorem mem_sortDesc {α : Type} [LinearOrder α] {a : ScoredCand α}
    {l : List (ScoredCand α)} : a ∈ sortDesc l ↔ a ∈ l :=
  (sortDesc_perm l).mem_iff

theorem insertDesc_pairwise {α : Type} [LinearOrder α] (c : ScoredCand α)
    {l : List (ScoredCand α)}
    (h : l.Pairwise (fun a b => b.score ≤ a.score)) :
    (insertDesc c l).Pairwise (fun a b => b.score ≤ a.score) := by
  induction l with
  | nil => simp [insertDesc]
  | cons y ys ih =>
    rw [List.pairwise_cons] at h
    obtain ⟨hy, hys⟩ := h
    by_cases hlt : c.score < y.score
    · simp only [insertDesc, if_pos hlt]
      rw [List.pairwise_cons]
      refine ⟨?_, ih hys⟩
      intro a ha
      rcases mem_insertDesc.mp ha with rfl | ha'
      · exact le_of_lt hlt
      · exact hy a ha'
    · simp only [insertDesc, if_neg hlt]
      push_neg at hlt
      rw [List.pairwise_cons]
      refine ⟨?_, List.pairwise_cons.mpr ⟨hy, hys⟩⟩
      intro a ha
      rcases List.mem_cons.mp ha with rfl | ha'
      · exact hlt
      · exact le_trans (hy a ha') hlt

theorem sortDesc_pairwise {α : Type} [LinearOrder α]
    (l : List (ScoredCand α)) :
    (sortDesc l).Pairwise (fun a b => b.score ≤ a.score) := by
  induction l with
  | nil => simp [sortDesc]
  | cons c cs ih => exact insertDesc_pairwise c ih

theorem insertDesc_filter {α : Type} [LinearOrder α] (v : α)
    (c : ScoredCand α) (l : List (ScoredCand α)) :
    (insertDesc c l).filter (fun x => decide (x.score = v)) =
      (c :: l).filter (fun x => decide (x.score = v)) := by
  induction l with
  | nil => simp [insertDesc]
  | cons y ys ih =>
    by_cases hlt : c.score < y.score
    · by_cases hy : y.score = v
      · have hc : ¬ c.score = v := by
          intro hcv
          exact absurd hlt (by rw [hcv, hy]; exact lt_irrefl v)
        simp only [insertDesc, if_pos hlt]
        simp [List.filter_cons, hy, hc, ih]
      · simp only [insertDesc, if_pos hlt]
        simp [List.filter_cons, hy, ih]
    · simp [insertDesc, if_neg hlt]

theorem sortDesc_filter {α : Type} [LinearOrder α] (v : α)
    (l : List (ScoredCand α)) :
    (sortDesc l).filter (fun x => decide (x.score = v)) =
      l.filter (fun x => decide (x.score = v)) := by
  induction l with
  | nil => rfl
  | cons c cs ih =>
    show (insertDesc c (sortDesc cs)).filter _ = _
    rw [insertDesc_filter]
    by_cases hc : c.score = v
    · simp only [List.filter_cons, decide_eq_true_eq, hc, ite_true]
      rw [ih]
    · simp only [List.filter_cons, decide_eq_true_eq, hc, ite_false]
      exact ih

/-! ### Helper lemmas about `round4` -/

theorem round4_mono {α : Type} [LinearOrderedField α] [FloorRing α]
    {a b : α} (h : a ≤ b) : round4 a ≤ round4 b := by
  unfold round4
  have h2 : round (a * 10000) ≤ round (b * 10000) := by
    rw [round_eq, round_eq]
    exact Int.floor_le_floor (by nlinarith)
  have h3 : ((round (a * 10000) : ℤ) : α) ≤ ((round (b * 10000) : ℤ) : α) := by
    exact_mod_cast h2
  gcongr

theorem round4_one {α : Type} [LinearOrderedField α] [FloorRing α] :
    round4 (1 : α) = 1 := by
  unfold round4
  rw [one_mul, show ((10000 : α)) = ((10000 : ℤ) : α) by norm_cast,
    round_intCast]
  norm_num

theorem round4_neg_one {α : Type} [LinearOrderedField α] [FloorRing α] :
    round4 (-1 : α) = -1 := by
  unfold round4
  rw [show ((-1 : α) * 10000) = ((-10000 : ℤ) : α) by norm_num, round_intCast]
  norm_num

/-! ### Helper lemmas about the pipeline -/

theorem mem_score_relevance {α : Type} [LinearOrder α] {sim : Str → Str → α}
    {texts : List Candidate} {query : Str} {s : ScoredCand α}
    (h : s ∈ score_relevance sim texts query) :
    ∃ t, t ∈ texts ∧ s = ⟨t.doc, t.page, t.text, sim query t.text⟩ := by
  rw [score_relevance, mem_sortDesc] at h
  rcases List.mem_map.mp h with ⟨t, ht, hs⟩
  exact ⟨t, ht, hs.symm⟩

theorem mem_ranked_sections {α : Type} [LinearOrder α] {sim : Str → Str → α}
    {pdfs : List (Str × Pdf)} {persona job : Str} {s : ScoredCand α}
    (h : s ∈ ranked_sections sim pdfs persona job) :
    s ∈ score_relevance sim (all_sections pdfs) (full_query persona job) :=
  List.take_subset 10 _ h

theorem ranked_sections_length {α : Type} [LinearOrder α]
    (sim : Str → Str → α) (pdfs : List (Str × Pdf)) (persona job : Str) :
    (ranked_sections sim pdfs persona job).length =
      min 10 (all_sections pdfs).length := by
  simp [ranked_sections, score_relevance, sortDesc_length, attachScores]

theorem ranked_sections_pairwise {α : Type} [LinearOrder α]
    (sim : Str → Str → α) (pdfs : List (Str × Pdf)) (persona job : Str) :
    (ranked_sections sim pdfs persona job).Pairwise
      (fun a b => b.score ≤ a.score) :=
  List.Pairwise.sublist (List.take_sublist 10 _) (sortDesc_pairwise _)

theorem extracted_sections_eq {α : Type} [LinearOrderedField α] [FloorRing α]
    (sim : Str → Str → α) (pdfs : List (Str × Pdf))
    (persona job ts : Str) :
    (process_documents sim pdfs persona job ts).extracted_sections =
      enumMap mkExtractedEntry 0 (ranked_sections sim pdfs persona job) :=
  rfl

theorem subsection_analysis_eq {α : Type} [LinearOrderedField α] [FloorRing α]
    (sim : Str → Str → α) (pdfs : List (Str × Pdf))
    (persona job ts : Str) :
    (process_documents sim pdfs persona job ts).subsection_analysis =
      (ranked_sections sim pdfs persona job).map mkSubsectionEntry :=
  rfl

/-! ### Claim theorems -/

/-- Claim C2: the sort performed by `score_relevance` is by descending score
and stable: the output is pairwise non-increasing in score, is a
permutation of the scored input, and for every score value the sublist of
candidates carrying that score is exactly the corresponding sublist of the
input (equal-score candidates keep their relative input order). -/
theorem score_relevance_sorted_stable {α : Type} [LinearOrder α]
    (sim : Str → Str → α) (texts : List Candidate) (query : Str) :
    (score_relevance sim texts query).Pairwise (fun a b => b.score ≤ a.score)
    ∧ (score_relevance sim texts query).Perm (attachScores (sim query) texts)
    ∧ ∀ v : α,
        (score_relevance sim texts query).filter
            (fun x => decide (x.score = v)) =
          (attachScores (sim query) texts).filter
            (fun x => decide (x.score = v)) :=
  ⟨sortDesc_pairwise _, sortDesc_perm _, fun v => sortDesc_filter v _⟩

/-- Claim C4, counterexample: on an empty candidate list `score_relevance`
still invokes the embedding capability — the source unconditionally
encodes the (empty) batch of texts and the query, so its encode-call
trace is nonempty, refuting "no encode call is made on zero inputs". -/
theorem score_relevance_empty_encode_cx :
    ¬ score_relevance_calls [] (("query").toList) = [] := by
  decide

/-- Claim C4 as amended: if the candidate sequence is empty,
`score_relevance` returns an empty sequence, but the embedding capability
is still invoked — once on the empty batch of texts and once on the
query. -/
theorem score_relevance_empty_still_encodes {α : Type} [LinearOrder α]
    (sim : Str → Str → α) (query : Str) :
    score_relevance sim [] query = ([] : List (ScoredCand α))
    ∧ score_relevance_calls [] query = [[], [query]] :=
  ⟨rfl, rfl⟩

/-- Claim C5, counterexample: on a document set whose only block is shorter
than 30 characters (zero qualifying candidates pooled),
`process_documents` does not fail — it returns a full report with
populated metadata and empty section lists; no `EmptyInputError` exists
in the source. -/
theorem process_documents_empty_pool_cx :
    all_sections [((("up/a.pdf").toList : Str), [[("too short").toList]])] = []
    ∧ (process_documents (fun _ t => (t.length : ℚ))
        [((("up/a.pdf").toList : Str), [[("too short").toList]])]
        (("p").toList) (("j").toList) (("t").toList)).extracted_sections = []
    ∧ (process_documents (fun _ t => (t.length : ℚ))
        [((("up/a.pdf").toList : Str), [[("too short").toList]])]
        (("p").toList) (("j").toList) (("t").toList)).metadata =
      ⟨[("a.pdf").toList], ("p").toList, ("j").toList, ("t").toList⟩ := by
  decide

/-- Claim C5 as amended: when the pooled candidate list is empty (e.g. every
document contributed zero qualifying blocks), `process_documents` returns
a report with empty `extracted_sections` and `subsection_analysis` and
intact metadata, rather than failing (the source performs no emptiness
check and defines no `EmptyInputError`). -/
theorem process_documents_empty_pool_returns_report {α : Type}
    [LinearOrderedField α] [FloorRing α] (sim : Str → Str → α)
    (pdfs : List (Str × Pdf)) (persona job ts : Str)
    (h : all_sections pdfs = []) :
    (process_documents sim pdfs persona job ts).extracted_sections = []
    ∧ (process_documents sim pdfs persona job ts).subsection_analysis = []
    ∧ (process_documents sim pdfs persona job ts).metadata =
      ⟨pdfs.map (fun pd => basename pd.1), persona, job, ts⟩ := by
  have hr : ranked_sections sim pdfs persona job = ([] : List (ScoredCand α)) := by
    simp [ranked_sections, score_relevance, attachScores, h, sortDesc]
  refine ⟨?_, ?_, rfl⟩
  · rw [extracted_sections_eq, hr]; rfl
  · rw [subsection_analysis_eq, hr]; rfl

/-- Claim C5, witness for the amended theorem at a concrete input with zero
qualifying candidates. -/
theorem process_documents_empty_pool_returns_report_witness :
    all_sections [((("up/b.pdf").toList : Str), [[("tiny").toList]])] = []
    ∧ (process_documents (fun _ t => (t.length : ℚ))
        [((("up/b.pdf").toList : Str), [[("tiny").toList]])]
        (("p").toList) (("j").toList) (("ts").toList)).extracted_sections = []
    ∧ (process_documents (fun _ t => (t.length : ℚ))
        [((("up/b.pdf").toList : Str), [[("tiny").toList]])]
        (("p").toList) (("j").toList) (("ts").toList)).subsection_analysis = []
    ∧ (process_documents (fun _ t => (t.length : ℚ))
        [((("up/b.pdf").toList : Str), [[("tiny").toList]])]
        (("p").toList) (("j").toList) (("ts").toList)).metadata =
      ⟨[(("up/b.pdf").toList : Str)].map (fun pd => basename pd),
        ("p").toList, ("j").toList, ("ts").toList⟩ := by
  have h : all_sections [((("up/b.pdf").toList : Str), [[("tiny").toList]])] = [] := by
    decide
  have := process_documents_empty_pool_returns_report
    (fun _ t => (t.length : ℚ)) [((("up/b.pdf").toList : Str), [[("tiny").toList]])]
    (("p").toList) (("j").toList) (("ts").toList) h
  exact ⟨h, this.1, this.2.1, this.2.2⟩

/-- Claim C8: `metadata.documents` is exactly the ordered basenames of the
supplied document paths; it depends only on the paths, not on document
contents, the similarity backend, or the other run parameters, so a
document contributing zero candidates is still listed and extraction
order has no effect. -/
theorem metadata_documents_basenames {α : Type} [LinearOrderedField α]
    [FloorRing α] (sim sim' : Str → Str → α)
    (pdfs pdfs' : List (Str × Pdf)) (persona job ts persona' job' ts' : Str)
    (hpaths : pdfs.map Prod.fst = pdfs'.map Prod.fst) :
    (process_documents sim pdfs persona job ts).metadata.documents =
      pdfs.map (fun pd => basename pd.1)
    ∧ (process_documents sim pdfs persona job ts).metadata.documents =
      (process_documents sim' pdfs' persona' job' ts').metadata.documents := by
  have key : ∀ q : List (Str × Pdf),
      q.map (fun pd => basename pd.1) = (q.map Prod.fst).map basename := by
    intro q
    rw [List.map_map]
    rfl
  constructor
  · rfl
  · show pdfs.map (fun pd => basename pd.1) = pdfs'.map (fun pd => basename pd.1)
    rw [key, key, hpaths]

/-- Claim C8, witness: two single-document runs sharing the path but with
different contents, similarity backends, and run strings produce the same
`metadata.documents`. -/
theorem metadata_documents_basenames_witness :
    ([((("up/c.pdf").toList : Str), ([[("alpha").toList]] : Pdf))].map Prod.fst =
      [((("up/c.pdf").toList : Str), ([[]] : Pdf))].map Prod.fst)
    ∧ (process_documents (fun _ t => (t.length : ℚ))
        [((("up/c.pdf").toList : Str), ([[("alpha").toList]] : Pdf))]
        (("p").toList) (("j").toList) (("t1").toList)).metadata.documents =
      [((("up/c.pdf").toList : Str), ([[("alpha").toList]] : Pdf))].map
        (fun pd => basename pd.1)
    ∧ (process_documents (fun _ t => (t.length : ℚ))
        [((("up/c.pdf").toList : Str), ([[("alpha").toList]] : Pdf))]
        (("p").toList) (("j").toList) (("t1").toList)).metadata.documents =
      (process_documents (fun _ _ => (0 : ℚ))
        [((("up/c.pdf").toList : Str), ([[]] : Pdf))]
        (("q").toList) (("k").toList) (("t2").toList)).metadata.documents := by
  have hpaths :
      [((("up/c.pdf").toList : Str), ([[("alpha").toList]] : Pdf))].map Prod.fst =
        [((("up/c.pdf").toList : Str), ([[]] : Pdf))].map Prod.fst := by
    decide
  have := metadata_documents_basenames (fun _ t => (t.length : ℚ))
    (fun _ _ => (0 : ℚ))
    [((("up/c.pdf").toList : Str), ([[("alpha").toList]] : Pdf))]
    [((("up/c.pdf").toList : Str), ([[]] : Pdf))]
    (("p").toList) (("j").toList) (("t1").toList)
    (("q").toList) (("k").toList) (("t2").toList) hpaths
  exact ⟨hpaths, this.1, this.2⟩

/-- Claim C1: the report's `extracted_sections` and `subsection_analysis`
have the same length, equal to `min 10` of the number of qualifying
candidates pooled across all documents, and the entries at each position
`i` are derived from the same ranked candidate (the `i`-th element of the
sorted, truncated candidate list). -/
theorem report_sections_aligned {α : Type} [LinearOrderedField α]
    [FloorRing α] (sim : Str → Str → α) (pdfs : List (Str × Pdf))
    (persona job ts : Str) (i : Nat)
    (hi : i < (process_documents sim pdfs persona job ts).extracted_sections.length)
    (hj : i < (process_documents sim pdfs persona job ts).subsection_analysis.length)
    (hk : i < (ranked_sections sim pdfs persona job).length) :
    (process_documents sim pdfs persona job ts).extracted_sections.length =
        (process_documents sim pdfs persona job ts).subsection_analysis.length
    ∧ (process_documents sim pdfs persona job ts).extracted_sections.length =
        min 10 (all_sections pdfs).length
    ∧ (process_documents sim pdfs persona job ts).extracted_sections.get ⟨i, hi⟩ =
        mkExtractedEntry i ((ranked_sections sim pdfs persona job).get ⟨i, hk⟩)
    ∧ (process_documents sim pdfs persona job ts).subsection_analysis.get ⟨i, hj⟩ =
        mkSubsectionEntry ((ranked_sections sim pdfs persona job).get ⟨i, hk⟩) := by
  refine ⟨?_, ?_, ?_, ?_⟩
  · rw [extracted_sections_eq, subsection_analysis_eq, enumMap_length,
      List.length_map]
  · rw [extracted_sections_eq, enumMap_length, ranked_sections_length]
  · have h := enumMap_get mkExtractedEntry
      (ranked_sections sim pdfs persona job) 0 i hi hk
    simpa using h
  · show ((ranked_sections sim pdfs persona job).map mkSubsectionEntry).get
        ⟨i, hj⟩ = _
    simp [List.get_eq_getElem, List.getElem_map]

/-- Claim C3: the entry at 0-based position `i` of `extracted_sections`
carries `importance_rank = i + 1`, and the (rounded) `score` field is
non-increasing along the list. -/
theorem extracted_rank_and_score_order {α : Type} [LinearOrderedField α]
    [FloorRing α] (sim : Str → Str → α) (pdfs : List (Str × Pdf))
    (persona job ts : Str) (i j : Nat)
    (hi : i < (process_documents sim pdfs persona job ts).extracted_sections.length)
    (hj : j < (process_documents sim pdfs persona job ts).extracted_sections.length)
    (hij : i ≤ j) :
    ((process_documents sim pdfs persona job ts).extracted_sections.get
        ⟨i, hi⟩).importance_rank = i + 1
    ∧ ((process_documents sim pdfs persona job ts).extracted_sections.get
        ⟨j, hj⟩).score ≤
      ((process_documents sim pdfs persona job ts).extracted_sections.get
        ⟨i, hi⟩).score := by
  have hk : i < (ranked_sections sim pdfs persona job).length := by
    have h := hi
    rwa [extracted_sections_eq, enumMap_length] at h
  have hk' : j < (ranked_sections sim pdfs persona job).length := by
    have h := hj
    rwa [extracted_sections_eq, enumMap_length] at h
  have egi : (process_documents sim pdfs persona job ts).extracted_sections.get
      ⟨i, hi⟩ =
      mkExtractedEntry i ((ranked_sections sim pdfs persona job).get ⟨i, hk⟩) := by
    have h := enumMap_get mkExtractedEntry
      (ranked_sections sim pdfs persona job) 0 i hi hk
    rw [Nat.zero_add] at h
    exact h
  have egj : (process_documents sim pdfs persona job ts).extracted_sections.get
      ⟨j, hj⟩ =
      mkExtractedEntry j ((ranked_sections sim pdfs persona job).get ⟨j, hk'⟩) := by
    have h := enumMap_get mkExtractedEntry
      (ranked_sections sim pdfs persona job) 0 j hj hk'
    rw [Nat.zero_add] at h
    exact h
  constructor
  · rw [egi]
    rfl
  · rw [egi, egj]
    show round4 ((ranked_sections sim pdfs persona job).get ⟨j, hk'⟩).score ≤
      round4 ((ranked_sections sim pdfs persona job).get ⟨i, hk⟩).score
    apply round4_mono
    rcases Nat.eq_or_lt_of_le hij with rfl | hlt
    · exact le_refl _
    · exact List.pairwise_iff_get.mp
        (ranked_sections_pairwise sim pdfs persona job)
        ⟨i, hk⟩ ⟨j, hk'⟩ (Fin.mk_lt_mk.mpr hlt)

/-- Claim C7: every `extracted_sections` entry's `section_title` is the
first newline-free segment of its candidate's text truncated to at most
50 characters, every `subsection_analysis` entry's `refined_text` is its
candidate's text hard-truncated to at most 300 characters, and the
corresponding length bounds hold. -/
theorem report_truncation_fields {α : Type} [LinearOrderedField α]
    [FloorRing α] (sim : Str → Str → α) (pdfs : List (Str × Pdf))
    (persona job ts : Str) :
    (∀ e, e ∈ (process_documents sim pdfs persona job ts).extracted_sections →
      e.section_title.length ≤ 50
      ∧ ∃ s, s ∈ ranked_sections sim pdfs persona job
          ∧ e.section_title = (firstLine s.text).take 50)
    ∧ (∀ e, e ∈ (process_documents sim pdfs persona job ts).subsection_analysis →
      e.refined_text.length ≤ 300
      ∧ ∃ s, s ∈ ranked_sections sim pdfs persona job
          ∧ e.refined_text = s.text.take 300) := by
  constructor
  · intro e he
    rw [extracted_sections_eq] at he
    rcases mem_enumMap he with ⟨k, s, hs, rfl⟩
    exact ⟨List.length_take_le 50 _, s, hs, rfl⟩
  · intro e he
    rw [subsection_analysis_eq] at he
    rcases List.mem_map.mp he with ⟨s, hs, rfl⟩
    exact ⟨List.length_take_le 300 _, s, hs, rfl⟩

/-- Claim C10: at every position `i`, the `section_title` of the extracted
entry is a prefix of the `refined_text` of the subsection entry at the
same position, and that `refined_text` is itself a prefix of the
underlying candidate's full text. -/
theorem title_prefix_refined_prefix_text {α : Type} [LinearOrderedField α]
    [FloorRing α] (sim : Str → Str → α) (pdfs : List (Str × Pdf))
    (persona job ts : Str) (i : Nat)
    (hi : i < (process_documents sim pdfs persona job ts).extracted_sections.length)
    (hj : i < (process_documents sim pdfs persona job ts).subsection_analysis.length)
    (hk : i < (ranked_sections sim pdfs persona job).length) :
    ((process_documents sim pdfs persona job ts).extracted_sections.get
        ⟨i, hi⟩).section_title <+:
      ((process_documents sim pdfs persona job ts).subsection_analysis.get
        ⟨i, hj⟩).refined_text
    ∧ ((process_documents sim pdfs persona job ts).subsection_analysis.get
        ⟨i, hj⟩).refined_text <+:
      ((ranked_sections sim pdfs persona job).get ⟨i, hk⟩).text := by
  have egi : (process_documents sim pdfs persona job ts).extracted_sections.get
      ⟨i, hi⟩ =
      mkExtractedEntry i ((ranked_sections sim pdfs persona job).get ⟨i, hk⟩) := by
    simpa using enumMap_get mkExtractedEntry
      (ranked_sections sim pdfs persona job) 0 i hi hk
  have sgj : (process_documents sim pdfs persona job ts).subsection_analysis.get
      ⟨i, hj⟩ =
      mkSubsectionEntry ((ranked_sections sim pdfs persona job).get ⟨i, hk⟩) := by
    show ((ranked_sections sim pdfs persona job).map mkSubsectionEntry).get
        ⟨i, hj⟩ = _
    simp [List.get_eq_getElem, List.getElem_map]
  rw [egi, sgj]
  constructor
  · show (firstLine ((ranked_sections sim pdfs persona job).get ⟨i, hk⟩).text).take 50 <+:
      ((ranked_sections sim pdfs persona job).get ⟨i, hk⟩).text.take 300
    refine List.prefix_take_iff.mpr ⟨?_, ?_⟩
    · exact ( List.take_prefix 50 _).trans ( List.takeWhile_prefix _)
    · exact le_trans (List.length_take_le 50 _) (by norm_num)
  · exact List.take_prefix 300 _

/-! ### Segmenter facts -/

theorem get_sections_spec {path : Str} {doc : Pdf} {c : Candidate}
    (h : c ∈ get_sections_from_pdf path doc) :
    (∃ pg, pg ∈ doc ∧ ∃ b, b ∈ pg ∧ c.text = trim b) ∧ 30 ≤ c.text.length := by
  rw [get_sections_from_pdf] at h
  rcases List.mem_flatten.mp h with ⟨l, hl, hc⟩
  rcases mem_enumMap hl with ⟨k, pg, hpg, rfl⟩
  rcases List.mem_filterMap.mp hc with ⟨b, hb, hfb⟩
  by_cases h30 : 30 ≤ (trim b).length
  · simp only [if_pos h30, Option.some.injEq] at hfb
    subst hfb
    exact ⟨⟨pg, hpg, b, hb, rfl⟩, h30⟩
  · simp only [if_neg h30] at hfb
    exact Option.noConfusion hfb

theorem ranked_text_min_length {α : Type} [LinearOrder α]
    {sim : Str → Str → α} {pdfs : List (Str × Pdf)} {persona job : Str}
    {s : ScoredCand α} (hs : s ∈ ranked_sections sim pdfs persona job) :
    30 ≤ s.text.length := by
  rcases mem_score_relevance (mem_ranked_sections hs) with ⟨t, ht, rfl⟩
  rw [all_sections] at ht
  rcases List.mem_flatten.mp ht with ⟨l, hl, htl⟩
  rcases List.mem_map.mp hl with ⟨pd, _hpd, rfl⟩
  exact (get_sections_spec htl).2

/-- Claim C6: every candidate produced by the Segmenter has as text the
whitespace-trimmed content of one of the document's blocks, of length at
least 30, and consequently every candidate reaching the report's ranked
selection has text of length at least 30. -/
theorem segmenter_trim_min_length {α : Type} [LinearOrder α]
    (sim : Str → Str → α) (pdfs : List (Str × Pdf)) (persona job : Str)
    (path : Str) (doc : Pdf) :
    (∀ c, c ∈ get_sections_from_pdf path doc →
      (∃ pg, pg ∈ doc ∧ ∃ b, b ∈ pg ∧ c.text = trim b) ∧ 30 ≤ c.text.length)
    ∧ ∀ s : ScoredCand α, s ∈ ranked_sections sim pdfs persona job →
        30 ≤ s.text.length :=
  ⟨fun _ h => get_sections_spec h, fun _ h => ranked_text_min_length h⟩

/-! ### Concrete fixtures used by the witness theorems -/

/-- A deterministic stand-in similarity backend: the candidate's length. -/
def wsim : Str → Str → ℚ := fun _ t => (t.length : ℚ)

/-- A 30-character block (exactly at the Segmenter's threshold). -/
def wblockA : Str := ("abcdefghijklmnopqrstuvwxyz0123").toList

/-- A 31-character block. -/
def wblockB : Str := ("ABCDEFGHIJKLMNOPQRSTUVWXYZ01234").toList

/-- A two-page document with one qualifying block per page. -/
def wdoc : Pdf := [[wblockA], [wblockB]]

/-- A path with a directory component, to exercise `basename`. -/
def wpath : Str := ("up/a.pdf").toList

/-- A one-document input set. -/
def wpdfs : List (Str × Pdf) := [(wpath, wdoc)]

/-- Concrete persona string. -/
def wp : Str := ("a nutritionist").toList

/-- Concrete job string. -/
def wj : Str := ("plan a menu").toList

/-- Concrete timestamp string. -/
def wt : Str := ("2025-07-28 10:00:00").toList

/-- Claim C6, witness: a concrete candidate of the fixture document
satisfies the trimming and minimum-length facts, and a concrete scored
candidate of the fixture run satisfies the minimum-length bound. -/
theorem segmenter_trim_min_length_witness :
    ((⟨("a.pdf").toList, 1, wblockA⟩ : Candidate) ∈
        get_sections_from_pdf wpath wdoc)
    ∧ ((∃ pg, pg ∈ wdoc ∧ ∃ b, b ∈ pg ∧
          (⟨("a.pdf").toList, 1, wblockA⟩ : Candidate).text = trim b)
        ∧ 30 ≤ (⟨("a.pdf").toList, 1, wblockA⟩ : Candidate).text.length)
    ∧ ((⟨("a.pdf").toList, 2, wblockB, (31 : ℚ)⟩ : ScoredCand ℚ) ∈
        ranked_sections wsim wpdfs wp wj)
    ∧ 30 ≤ (⟨("a.pdf").toList, 2, wblockB, (31 : ℚ)⟩ : ScoredCand ℚ).text.length := by
  have h1 : (⟨("a.pdf").toList, 1, wblockA⟩ : Candidate) ∈
      get_sections_from_pdf wpath wdoc := by decide
  have h2 : (⟨("a.pdf").toList, 2, wblockB, (31 : ℚ)⟩ : ScoredCand ℚ) ∈
      ranked_sections wsim wpdfs wp wj := by decide
  exact ⟨h1, (segmenter_trim_min_length wsim wpdfs wp wj wpath wdoc).1 _ h1,
    h2, (segmenter_trim_min_length wsim wpdfs wp wj wpath wdoc).2 _ h2⟩

/-! ### Cosine similarity over embedding vectors (score field at `ℝ`) -/

/-- Dot product of two equal-dimension vectors (extra coordinates of a
longer vector are ignored, as the backend only ever compares vectors of
one fixed dimension). -/
def dotp (u v : List ℝ) : ℝ :=
  (List.zipWith (fun a b => a * b) u v).sum

theorem dotp_nil_right (u : List ℝ) : dotp u [] = 0 := by
  cases u <;> rfl

theorem dotp_cons (x y : ℝ) (xs ys : List ℝ) :
    dotp (x :: xs) (y :: ys) = x * y + dotp xs ys := rfl

theorem dotp_self_nonneg (v : List ℝ) : 0 ≤ dotp v v := by
  induction v with
  | nil => exact le_refl 0
  | cons x xs ih =>
    rw [dotp_cons]
    exact add_nonneg (mul_self_nonneg x) ih

/-- Cauchy–Schwarz for `dotp`, squared form. -/
theorem dotp_sq_le (u : List ℝ) : ∀ v : List ℝ,
    (dotp u v) ^ 2 ≤ dotp u u * dotp v v := by
  induction u with
  | nil => intro v; simp [dotp]
  | cons x xs ih =>
    intro v
    cases v with
    | nil => simp [dotp_nil_right]
    | cons y ys =>
      have hA := dotp_self_nonneg xs
      have hB := dotp_self_nonneg ys
      have hD := ih ys
      rw [dotp_cons, dotp_cons, dotp_cons]
      rcases eq_or_lt_of_le hA with hA0 | hApos
      · have hD2 : (dotp xs ys) ^ 2 ≤ 0 := by
          rw [← hA0] at hD
          simpa using hD
        have hD0 : dotp xs ys = 0 :=
          (pow_eq_zero_iff two_ne_zero).mp
            (le_antisymm hD2 (sq_nonneg _))
        rw [hD0, ← hA0]
        nlinarith [mul_nonneg (mul_self_nonneg x) hB]
      · nlinarith [sq_nonneg (x * dotp xs ys - y * dotp xs xs),
          mul_nonneg (add_nonneg (mul_self_nonneg x) (le_of_lt hApos))
            (sub_nonneg.mpr hD), hApos, hB]

/-- Magnitude (Euclidean norm) of an embedding vector. -/
noncomputable def magnitude (v : List ℝ) : ℝ :=
  Real.sqrt (dotp v v)

theorem magnitude_nonneg (v : List ℝ) : 0 ≤ magnitude v :=
  Real.sqrt_nonneg _

theorem abs_dotp_le (u v : List ℝ) :
    |dotp u v| ≤ magnitude u * magnitude v := by
  rw [magnitude, magnitude, ← Real.sqrt_mul (dotp_self_nonneg u),
    ← Real.sqrt_sq_eq_abs]
  exact Real.sqrt_le_sqrt (dotp_sq_le u v)

/-- Modelled from the spec: the cosine similarity computed by the external
`util.pytorch_cos_sim` routine (not part of this repository) — the dot
product of the two vectors divided by the product of their magnitudes. -/
noncomputable def cos_sim (u v : List ℝ) : ℝ :=
  dotp u v / (magnitude u * magnitude v)

theorem cos_sim_bounds {u v : List ℝ} (hu : magnitude u ≠ 0)
    (hv : magnitude v ≠ 0) : -1 ≤ cos_sim u v ∧ cos_sim u v ≤ 1 := by
  have hu' : 0 < magnitude u :=
    lt_of_le_of_ne (magnitude_nonneg u) (Ne.symm hu)
  have hv' : 0 < magnitude v :=
    lt_of_le_of_ne (magnitude_nonneg v) (Ne.symm hv)
  have hprod : 0 < magnitude u * magnitude v := mul_pos hu' hv'
  have habs : |cos_sim u v| ≤ 1 := by
    rw [cos_sim, abs_div, abs_of_pos hprod]
    exact div_le_one_of_le₀ (abs_dotp_le u v) (le_of_lt hprod)
  exact abs_le.mp habs

/-- The similarity function realised by an embedding backend `encode`
followed by cosine similarity, as `score_relevance` uses it. -/
noncomputable def simCos (encode : Str → List ℝ) : Str → Str → ℝ :=
  fun query text => cos_sim (encode query) (encode text)

theorem round4_bounds {α : Type} [LinearOrderedField α] [FloorRing α]
    {x : α} (h1 : -1 ≤ x) (h2 : x ≤ 1) :
    -1 ≤ round4 x ∧ round4 x ≤ 1 := by
  constructor
  · calc (-1 : α) = round4 (-1) := round4_neg_one.symm
    _ ≤ round4 x := round4_mono h1
  · calc round4 x ≤ round4 1 := round4_mono h2
    _ = 1 := round4_one

/-- Claim C9: with the score field instantiated at `ℝ` and the similarity
realised as cosine similarity over an embedding backend with nonzero
vectors, every `extracted_sections` entry's score lies in `[-1, 1]` and
equals the raw cosine similarity of the query vector and its candidate's
vector, rounded to 4 decimal places. -/
theorem scores_cosine_bounded_rounded (encode : Str → List ℝ)
    (pdfs : List (Str × Pdf)) (persona job ts : Str)
    (hmag : ∀ s : Str, magnitude (encode s) ≠ 0) :
    ∀ e, e ∈ (process_documents (simCos encode) pdfs persona job
        ts).extracted_sections →
      (-1 ≤ e.score ∧ e.score ≤ 1)
      ∧ ∃ c, c ∈ all_sections pdfs ∧
          e.score = round4 (cos_sim (encode (full_query persona job))
            (encode c.text)) := by
  intro e he
  rw [extracted_sections_eq] at he
  rcases mem_enumMap he with ⟨k, s, hs, rfl⟩
  rcases mem_score_relevance (mem_ranked_sections hs) with ⟨t, ht, rfl⟩
  have hb := cos_sim_bounds (hmag (full_query persona job)) (hmag t.text)
  have hr := round4_bounds hb.1 hb.2
  exact ⟨⟨hr.1, hr.2⟩, t, ht, rfl⟩

/-- Claim C9, witness: a constant one-dimensional embedding backend has
nonzero vectors, and the theorem applies to the fixture run. -/
theorem scores_cosine_bounded_rounded_witness :
    (∀ s : Str, magnitude ((fun _ => [(1 : ℝ)]) s) ≠ 0)
    ∧ ∀ e, e ∈ (process_documents (simCos (fun _ => [(1 : ℝ)])) wpdfs wp wj
        wt).extracted_sections →
      (-1 ≤ e.score ∧ e.score ≤ 1)
      ∧ ∃ c, c ∈ all_sections wpdfs ∧
          e.score = round4 (cos_sim ((fun _ => [(1 : ℝ)]) (full_query wp wj))
            ((fun _ => [(1 : ℝ)]) c.text)) := by
  have hmag : ∀ s : Str, magnitude ((fun _ => [(1 : ℝ)]) s) ≠ 0 := by
    intro s
    show Real.sqrt (dotp [(1 : ℝ)] [(1 : ℝ)]) ≠ 0
    norm_num [dotp, Real.sqrt_one]
  exact ⟨hmag,
    scores_cosine_bounded_rounded (fun _ => [(1 : ℝ)]) wpdfs wp wj wt hmag⟩

/-- Claim C1, witness: the fixture run (two qualifying blocks) at position
0. -/
theorem report_sections_aligned_witness :
    (process_documents wsim wpdfs wp wj wt).extracted_sections.length =
        (process_documents wsim wpdfs wp wj wt).subsection_analysis.length
    ∧ (process_documents wsim wpdfs wp wj wt).extracted_sections.length =
        min 10 (all_sections wpdfs).length
    ∧ (process_documents wsim wpdfs wp wj wt).extracted_sections.get
        ⟨0, by decide⟩ =
      mkExtractedEntry 0 ((ranked_sections wsim wpdfs wp wj).get ⟨0, by decide⟩)
    ∧ (process_documents wsim wpdfs wp wj wt).subsection_analysis.get
        ⟨0, by decide⟩ =
      mkSubsectionEntry ((ranked_sections wsim wpdfs wp wj).get ⟨0, by decide⟩) :=
  report_sections_aligned wsim wpdfs wp wj wt 0 (by decide) (by decide)
    (by decide)

/-- Claim C3, witness: in the fixture run, position 0 holds rank 1 and the
score at position 1 does not exceed the score at position 0. -/
theorem extracted_rank_and_score_order_witness :
    ((process_documents wsim wpdfs wp wj wt).extracted_sections.get
        ⟨0, by decide⟩).importance_rank = 1
    ∧ ((process_documents wsim wpdfs wp wj wt).extracted_sections.get
        ⟨1, by decide⟩).score ≤
      ((process_documents wsim wpdfs wp wj wt).extracted_sections.get
        ⟨0, by decide⟩).score :=
  extracted_rank_and_score_order wsim wpdfs wp wj wt 0 1 (by decide)
    (by decide) (by decide)

/-- Claim C7, witness: the first entries of the fixture report satisfy the
truncation facts and length bounds. -/
theorem report_truncation_fields_witness :
    ((process_documents wsim wpdfs wp wj wt).extracted_sections.get
        ⟨0, by decide⟩ ∈
        (process_documents wsim wpdfs wp wj wt).extracted_sections)
    ∧ (((process_documents wsim wpdfs wp wj wt).extracted_sections.get
          ⟨0, by decide⟩).section_title.length ≤ 50
        ∧ ∃ s, s ∈ ranked_sections wsim wpdfs wp wj
          ∧ ((process_documents wsim wpdfs wp wj wt).extracted_sections.get
              ⟨0, by decide⟩).section_title = (firstLine s.text).take 50)
    ∧ ((process_documents wsim wpdfs wp wj wt).subsection_analysis.get
        ⟨0, by decide⟩ ∈
        (process_documents wsim wpdfs wp wj wt).subsection_analysis)
    ∧ (((process_documents wsim wpdfs wp wj wt).subsection_analysis.get
          ⟨0, by decide⟩).refined_text.length ≤ 300
        ∧ ∃ s, s ∈ ranked_sections wsim wpdfs wp wj
          ∧ ((process_documents wsim wpdfs wp wj wt).subsection_analysis.get
              ⟨0, by decide⟩).refined_text = s.text.take 300) := by
  have h1 : (process_documents wsim wpdfs wp wj wt).extracted_sections.get
      ⟨0, by decide⟩ ∈
      (process_documents wsim wpdfs wp wj wt).extracted_sections :=
    List.get_mem _ _ _
  have h2 : (process_documents wsim wpdfs wp wj wt).subsection_analysis.get
      ⟨0, by decide⟩ ∈
      (process_documents wsim wpdfs wp wj wt).subsection_analysis :=
    List.get_mem _ _ _
  exact ⟨h1, (report_truncation_fields wsim wpdfs wp wj wt).1 _ h1,
    h2, (report_truncation_fields wsim wpdfs wp wj wt).2 _ h2⟩

/-- Claim C10, witness: the fixture run at position 0. -/
theorem title_prefix_refined_prefix_text_witness :
    ((process_documents wsim wpdfs wp wj wt).extracted_sections.get
        ⟨0, by decide⟩).section_title <+:
      ((process_documents wsim wpdfs wp wj wt).subsection_analysis.get
        ⟨0, by decide⟩).refined_text
    ∧ ((process_documents wsim wpdfs wp wj wt).subsection_analysis.get
        ⟨0, by decide⟩).refined_text <+:
      ((ranked_sections wsim wpdfs wp wj).get ⟨0, by decide⟩).text :=
  title_prefix_refined_prefix_text wsim wpdfs wp wj wt 0 (by decide)
    (by decide) (by decide)
